import Mathlib

/-
  Verification development for the Pharmyrus patent-search pipeline
  (src/main.py). Each Python function relevant to the checked properties
  is shallowly embedded as an executable Lean definition; theorems below
  settle the stated properties against these embeddings.
-/

set_option maxRecDepth 4000

namespace Pharmyrus

/-! ## Character classes

Python `re` character classes, restricted to the ASCII range (all inputs
handled by the pipeline are ASCII identifiers and ASCII text). -/

/-- Python regex class whitespace on the ASCII range: space, tab, newline,
carriage return, vertical tab, form feed. -/
def pyIsSpace (c : Char) : Bool :=
  c = ' ' || c = '\t' || c = '\n' || c = '\r' || c = Char.ofNat 11 || c = Char.ofNat 12

/-- The class of the one optional separator after the WO marker in pattern 1:
whitespace or hyphen. -/
def isSpaceDash (c : Char) : Bool := pyIsSpace c || c = '-'

/-- The class of the one optional separator between year and serial in
pattern 1: whitespace or slash. -/
def isSpaceSlash (c : Char) : Bool := pyIsSpace c || c = '/'

/-! ## Regex building blocks

The five patterns of `extract_wo_numbers` are linear sequences of literal
(case-insensitive) characters, fixed-width digit groups, and single-character
classes (optional or mandatory).  Each is embedded as a deterministic
match-at-position function; `optCls` implements the backtracking semantics of
a greedy optional single-character class. -/

/-- Match exactly `k` consecutive digit characters, returning them together
with the rest of the input (regex `\d{k}` on the ASCII range). -/
def takeDigits : Nat → List Char → Option (List Char × List Char)
  | 0, cs => some ([], cs)
  | _ + 1, [] => none
  | k + 1, c :: cs =>
    if c.isDigit then
      match takeDigits k cs with
      | some (d, r) => some (c :: d, r)
      | none => none
    else none

/-- Greedy optional single-character class with backtracking: first try to
consume one class character and run the continuation; if that fails, run the
continuation without consuming (regex `X?` for a character class `X`). -/
def optCls {α : Type} (p : Char → Bool) (k : List Char → Option α) :
    List Char → Option α
  | [] => k []
  | c :: cs =>
    if p c then
      match k cs with
      | some r => some r
      | none => k (c :: cs)
    else k (c :: cs)

/-- Greedy optional single-character class in tail position (nothing follows,
so no backtracking is observable): consume one class character if present. -/
def optSkip (p : Char → Bool) : List Char → List Char
  | [] => []
  | c :: cs => if p c then cs else c :: cs

/-- Case-insensitive literal `WO` marker (patterns 1 to 4 all start with it);
`re.IGNORECASE` on an ASCII literal admits exactly its two casings. -/
def matchWO : List Char → Option (List Char)
  | c0 :: c1 :: rest =>
    if (c0 = 'w' || c0 = 'W') && (c1 = 'o' || c1 = 'O') then some rest else none
  | _ => none

/-- Shared tail of patterns 1: `(\d{4})[\s/]?(\d{6})` with a parameterized
separator class. -/
def yearSepSerial (sep : Char → Bool) (cs : List Char) :
    Option (List Char × List Char × List Char) :=
  match takeDigits 4 cs with
  | none => none
  | some (y, cs1) =>
    optCls sep (fun cs2 =>
      match takeDigits 6 cs2 with
      | none => none
      | some (s, cs3) => some (y, s, cs3)) cs1

/-- Pattern 1 of `extract_wo_numbers`: `WO[\s-]?(\d{4})[\s/]?(\d{6})`,
matched at the current position. Returns (year group, serial group, rest). -/
def pat1At (cs : List Char) : Option (List Char × List Char × List Char) :=
  match matchWO cs with
  | none => none
  | some cs1 => optCls isSpaceDash (fun cs2 => yearSepSerial isSpaceSlash cs2) cs1

/-- Pattern 2: `WO(\d{4})(\d{6})[A-Z]?\d?` (trailing kind-code characters are
consumed greedily but not captured). -/
def pat2At (cs : List Char) : Option (List Char × List Char × List Char) :=
  match matchWO cs with
  | none => none
  | some cs1 =>
    match takeDigits 4 cs1 with
    | none => none
    | some (y, cs2) =>
      match takeDigits 6 cs2 with
      | none => none
      | some (s, cs3) => some (y, s, optSkip Char.isDigit (optSkip Char.isAlpha cs3))

/-- Pattern 3: `WO\s?(\d{4})/(\d{6})`. -/
def pat3At (cs : List Char) : Option (List Char × List Char × List Char) :=
  match matchWO cs with
  | none => none
  | some cs1 =>
    optCls pyIsSpace (fun cs2 =>
      match takeDigits 4 cs2 with
      | none => none
      | some (y, cs3) =>
        match cs3 with
        | c :: cs4 =>
          if c = '/' then
            match takeDigits 6 cs4 with
            | none => none
            | some (s, cs5) => some (y, s, cs5)
          else none
        | [] => none) cs1

/-- Pattern 4: `WO(\d{4})[\s-](\d{6})` (mandatory separator). -/
def pat4At (cs : List Char) : Option (List Char × List Char × List Char) :=
  match matchWO cs with
  | none => none
  | some cs1 =>
    match takeDigits 4 cs1 with
    | none => none
    | some (y, cs2) =>
      match cs2 with
      | c :: cs3 =>
        if isSpaceDash c then
          match takeDigits 6 cs3 with
          | none => none
          | some (s, cs4) => some (y, s, cs4)
        else none
      | [] => none

/-- Pattern 5: `PCT/[A-Z]{2}(\d{4})/(\d{6})` (case-insensitive letters: each
literal admits its two casings, and `[A-Z]` under IGNORECASE is any ASCII
letter). -/
def pat5At (cs : List Char) : Option (List Char × List Char × List Char) :=
  match cs with
  | p :: c :: t :: sl :: a :: b :: rest =>
    if (p = 'p' || p = 'P') && (c = 'c' || c = 'C') && (t = 't' || t = 'T')
        && sl = '/' && a.isAlpha && b.isAlpha then
      match takeDigits 4 rest with
      | none => none
      | some (y, cs1) =>
        match cs1 with
        | c1 :: cs2 =>
          if c1 = '/' then
            match takeDigits 6 cs2 with
            | none => none
            | some (s, cs3) => some (y, s, cs3)
          else none
        | [] => none
    else none
  | _ => none

/-- `re.findall` over one pattern: scan left to right, emit the group pair of
each leftmost non-overlapping match, resume after the matched text.  `fuel`
bounds recursion; every pattern consumes at least one character on success,
so `cs.length + 1` fuel suffices. -/
def findallAux (mAt : List Char → Option (List Char × List Char × List Char)) :
    Nat → List Char → List (List Char × List Char)
  | 0, _ => []
  | fuel + 1, cs =>
    match mAt cs with
    | some (y, s, rest) => (y, s) :: findallAux mAt fuel rest
    | none =>
      match cs with
      | [] => []
      | _ :: t => findallAux mAt fuel t

/-- `re.findall(pattern, text)` for one of the five patterns. -/
def findall (mAt : List Char → Option (List Char × List Char × List Char))
    (cs : List Char) : List (List Char × List Char) :=
  findallAux mAt (cs.length + 1) cs

/-! ## extract_wo_numbers -/

/-- Python `str.zfill(n)` on a digit string: left-pad with zeros to width
`n`. -/
def pyZfill (n : Nat) (s : List Char) : List Char :=
  if s.length < n then List.replicate (n - s.length) '0' ++ s else s

/-- Python `int(...)` on a digit string. -/
def pyInt (s : List Char) : Nat :=
  s.foldl (fun acc c => acc * 10 + (c.toNat - 48)) 0

/-- The two-digit-year expansion branch of `extract_wo_numbers`: two-digit
years below 50 map to the 2000s, others to the 1900s; four-digit years pass
through unchanged. -/
def canonYear (y : List Char) : List Char :=
  if y.length = 2 then
    if pyInt y < 50 then '2' :: '0' :: y else '1' :: '9' :: y
  else y

/-- Assemble one canonical identifier from a captured (year, serial) pair:
`f"WO{year}{number}"` with `number = serial.zfill(6)`. -/
def mkWO (m : List Char × List Char) : String :=
  String.mk ('W' :: 'O' :: (canonYear m.1 ++ pyZfill 6 m.2))

/-- Python `set.add`: insert if absent (membership is what the claims use;
insertion order stands in for the set's iteration order). -/
def setInsert (x : String) (l : List String) : List String :=
  if x ∈ l then l else l ++ [x]

/-- Embedding of `extract_wo_numbers` (src/main.py lines 147-167): run the
five patterns' findall over the text, canonicalize every captured pair, and
collect the results as a set. -/
def extract_wo_numbers (text : String) : List String :=
  [pat1At, pat2At, pat3At, pat4At, pat5At].foldl
    (fun acc mAt => (findall mAt text.data).foldl (fun a m => setInsert (mkWO m) a) acc)
    []

/-! ## http_get (src/main.py lines 66-89)

One call to `http_get` interacts with the network once per loop iteration;
the environment's behavior at attempt `a` is modelled by `script a`.
An attempt either yields a decoded JSON body with a 2xx status, a 429
(rate-limit) status, a 403 (forbidden) status, or raises an exception
(timeout, connection error, `raise_for_status` on another non-success
status, or JSON decode failure) — the `except` clause catches every one of
those, so they are a single constructor carrying the stringified message. -/

/-- The observable behavior of the environment on one attempt of
`http_get`. -/
inductive AttemptOutcome where
  | ok (payload : List (String × String))
  | rateLimited
  | forbidden
  | exc (msg : String)
deriving DecidableEq

/-- One iteration of the `for attempt in range(3)` loop of `http_get`.
The state is `Except d s`: `.error (dict, sleeps)` means the function already
returned `dict` (early exit), `.ok sleeps` means the loop continues with the
recorded sleeps so far.  Sleeps are recorded as (attempt index, seconds). -/
def http_step (script : Nat → AttemptOutcome)
    (st : Except (List (String × String) × List (Nat × Nat)) (List (Nat × Nat)))
    (a : Nat) :
    Except (List (String × String) × List (Nat × Nat)) (List (Nat × Nat)) :=
  match st with
  | .error done => .error done
  | .ok sleeps =>
    match script a with
    | .ok p => .error (p, sleeps)
    | .rateLimited => .ok (sleeps ++ [(a, 2 ^ (a + 1))])
    | .forbidden => .ok (sleeps ++ [(a, 1)])
    | .exc m =>
      if a < 2 then .ok (sleeps ++ [(a, 1)])
      else .error ([("error", m)], sleeps)

/-- Embedding of `http_get`: three fixed attempts; a 429 sleeps
`2 ** (attempt + 1)` seconds and retries; a 403 sleeps 1 second and retries;
a caught exception sleeps 1 second and retries unless it is the last attempt,
in which case the error-tagged dict is returned; if the loop exhausts all
attempts without returning, the empty dict is returned.  The result is the
returned dict paired with the recorded sleep trace. -/
def http_get (script : Nat → AttemptOutcome) :
    List (String × String) × List (Nat × Nat) :=
  match List.foldl (http_step script) (.ok []) [0, 1, 2] with
  | .error done => done
  | .ok sleeps => ([], sleeps)

/-- The sleep trace carried by an `http_get` loop state (recorded sleeps are
kept in both the early-exit and the continue constructor). -/
def stSleeps :
    Except (List (String × String) × List (Nat × Nat)) (List (Nat × Nat)) →
      List (Nat × Nat)
  | .error d => d.2
  | .ok sl => sl

/-! ## Final BR merge (src/main.py lines 765-790) -/

/-- A BR patent record as far as the merge is concerned: its id field
(`number`) and its provenance tag (`source`). -/
structure BrRecord where
  number : String
  source : String
deriving DecidableEq

/-- The normalization `re.sub` application of the merge: strip every
whitespace, hyphen and slash character, then uppercase. -/
def normalizeId (s : String) : String :=
  String.mk ((s.data.filter fun c => !(pyIsSpace c || c = '-' || c = '/')).map Char.toUpper)

/-- One iteration of a merge loop: skip the record when its normalized id was
already seen, otherwise mark it seen, stamp the source tag, and append. -/
def mergeStep (tag : String) (st : List String × List BrRecord) (r : BrRecord) :
    List String × List BrRecord :=
  let norm := normalizeId r.number
  if norm ∈ st.1 then st
  else (st.1 ++ [norm], st.2 ++ [{ r with source := tag }])

/-- One whole merge loop over a source's record list. -/
def mergeSource (tag : String) (rs : List BrRecord)
    (st : List String × List BrRecord) : List String × List BrRecord :=
  rs.foldl (mergeStep tag) st

/-- Embedding of the final-BR combination in `search_patents`: WO-extraction
records first, then INPI records, then EPO records, sharing one `seen_br`
set of normalized ids. -/
def combine_br (wo inpi epo : List BrRecord) : List BrRecord :=
  (mergeSource "epo_ops" epo
    (mergeSource "inpi_direct" inpi
      (mergeSource "wo_extraction" wo ([], [])))).2

/-! ## National-phase extraction (src/main.py lines 295-490)

A resolved detail payload and the records `extract_all_countries_from_wo`
builds from its five substructures.  Python dicts with differing key sets
are modelled by one record structure whose unused fields are the empty
string; every comparison the code performs (by `document_id`, or full-dict
equality between records of the same substructure) is preserved, because
records from different substructures always differ in their `source` field. -/

/-- Python `s[:2]`. -/
def pySlice2 (s : String) : String := String.mk (s.data.take 2)

/-- Python `s.startswith(pre)`. -/
def pyStartsWith (s pre : String) : Bool := pre.data.isPrefixOf s.data

/-- One entry of the `worldwide_applications` year buckets
(`app.get(key, "")` for each key; a missing key is the empty string). -/
structure AppEntry where
  document_id : String
  filing_date : String
  publication_date : String
  status : String
  title : String
  link : String

/-- A value of the `worldwide_applications` mapping: either a list of
application entries or some other JSON value (skipped by the
`isinstance(applications, list)` guard). -/
inductive WwValue where
  | list (entries : List AppEntry)
  | other

/-- One entry of `family_members`. -/
structure FamEntry where
  document_id : String
  publication_number : String
  title : String
  link : String

/-- One entry of `also_published_as`: a bare string id, a dict, or another
JSON value (skipped). -/
inductive PubEntry where
  | str (s : String)
  | dict (document_id : String) (publication_number : String)
  | other

/-- One entry of `similar_documents` or `citations`. -/
structure DocEntry where
  document_id : String
  publication_number : String
  title : String

/-- A resolved detail payload, restricted to the five record-bearing
substructures that `extract_all_countries_from_wo` scans (the scalar
`wo_details` fields it copies are not record-producing and are omitted). -/
structure Payload where
  worldwide_applications : List (String × WwValue)
  family_members : List FamEntry
  also_published_as : List PubEntry
  similar_documents : List DocEntry
  citations : List DocEntry

/-- One extracted national-phase record.  Fields a given substructure does
not set are the empty string. -/
structure NatRecord where
  document_id : String
  country : String
  filing_date : String
  publication_date : String
  status : String
  title : String
  link : String
  year : String
  source : String
deriving DecidableEq

/-- The all-empty record, used as the base for per-substructure builders. -/
def NatRecord.blank : NatRecord :=
  ⟨"", "", "", "", "", "", "", "", ""⟩

/-- The `country_patent` dict built for one `worldwide_applications` entry
(method 1): country is `document_id[:2]` when the id is truthy, else `""`;
the link falls back to a Google Patents URL when absent. -/
def appRecord (year : String) (app : AppEntry) : NatRecord :=
  { NatRecord.blank with
    document_id := app.document_id
    country := if app.document_id ≠ "" then pySlice2 app.document_id else ""
    filing_date := app.filing_date
    publication_date := app.publication_date
    status := app.status
    title := app.title
    link := if app.link ≠ "" then app.link
            else "https://patents.google.com/patent/" ++ app.document_id
    year := year
    source := "worldwide_applications" }

/-- The `family_patent` dict built for one `family_members` entry: the id is
`document_id or publication_number`, the country its first two characters. -/
def famRecord (m : FamEntry) : NatRecord :=
  let did := if m.document_id ≠ "" then m.document_id else m.publication_number
  { NatRecord.blank with
    document_id := did
    country := pySlice2 did
    title := m.title
    link := m.link
    source := "family_members" }

/-- The `pub_patent` dict built for one usable `also_published_as` entry. -/
def pubRecord (did : String) : NatRecord :=
  { NatRecord.blank with
    document_id := did
    country := pySlice2 did
    source := "also_published_as" }

/-- The doc id advertised by an `also_published_as` entry, when usable. -/
def pubDocId : PubEntry → Option String
  | .str s => some s
  | .dict d p => some (if d ≠ "" then d else p)
  | .other => none

/-- The doc id of a `similar_documents` or `citations` entry:
`document_id or publication_number`. -/
def docId (e : DocEntry) : String :=
  if e.document_id ≠ "" then e.document_id else e.publication_number

/-- The `sim_patent` / `cite_patent` dict built for a BR-prefixed
`similar_documents` or `citations` entry: the country is hard-coded `BR`. -/
def simRecord (src : String) (e : DocEntry) : NatRecord :=
  { NatRecord.blank with
    document_id := docId e
    country := "BR"
    title := e.title
    source := src }

/-- The worldwide/BR/family record lists accumulated by
`extract_all_countries_from_wo` while scanning a payload. -/
structure ExtractState where
  worldwide_patents : List NatRecord
  br_patents : List NatRecord
  family_members : List NatRecord

/-- One `worldwide_applications` entry (method 1): append its record to the
worldwide list, and to the BR list when its id starts with `BR`. -/
def wwAppStep (year : String) (st : ExtractState) (app : AppEntry) : ExtractState :=
  { st with
    worldwide_patents := st.worldwide_patents ++ [appRecord year app]
    br_patents :=
      if pyStartsWith (appRecord year app).document_id "BR" then
        st.br_patents ++ [appRecord year app]
      else st.br_patents }

/-- One `worldwide_applications` year bucket (method 1): non-list values are
skipped by the isinstance guard. -/
def wwYearStep (st : ExtractState) (yv : String × WwValue) : ExtractState :=
  match yv.2 with
  | .other => st
  | .list apps => apps.foldl (wwAppStep yv.1) st

/-- Scan of the `worldwide_applications` buckets (method 1). -/
def scanWorldwide (ww : List (String × WwValue)) (st : ExtractState) : ExtractState :=
  ww.foldl wwYearStep st

/-- One `family_members` entry: the record joins the family list; a
BR-prefixed record joins the BR list unless an equal record is already
there (the code builds the family-extended state first; the BR membership
test reads its unchanged BR list, i.e. `st.br_patents`). -/
def famStep (st : ExtractState) (m : FamEntry) : ExtractState :=
  if pyStartsWith (famRecord m).document_id "BR" &&
      !(st.br_patents.contains (famRecord m)) then
    { st with
      family_members := st.family_members ++ [famRecord m]
      br_patents := st.br_patents ++ [famRecord m] }
  else { st with family_members := st.family_members ++ [famRecord m] }

/-- Scan of `family_members`. -/
def scanFamily (fam : List FamEntry) (st : ExtractState) : ExtractState :=
  fam.foldl famStep st

/-- One `also_published_as` entry: a usable entry with a truthy id joins the
worldwide list unless some worldwide record already carries that id, and
(when BR-prefixed) the BR list under the same id test (the worldwide append
leaves the BR list unchanged, so both duplicate tests read `st`). -/
def pubStep (st : ExtractState) (pub : PubEntry) : ExtractState :=
  match pubDocId pub with
  | none => st
  | some did =>
    if did ≠ "" then
      if st.worldwide_patents.any (fun p => p.document_id = did) then
        if pyStartsWith did "BR" &&
            !(st.br_patents.any (fun p => p.document_id = did)) then
          { st with br_patents := st.br_patents ++ [pubRecord did] }
        else st
      else
        if pyStartsWith did "BR" &&
            !(st.br_patents.any (fun p => p.document_id = did)) then
          { st with
            worldwide_patents := st.worldwide_patents ++ [pubRecord did]
            br_patents := st.br_patents ++ [pubRecord did] }
        else
          { st with
            worldwide_patents := st.worldwide_patents ++ [pubRecord did] }
    else st

/-- Scan of `also_published_as`. -/
def scanAlsoPublished (pubs : List PubEntry) (st : ExtractState) : ExtractState :=
  pubs.foldl pubStep st

/-- One `similar_documents` or `citations` entry: BR-prefixed entries join
the BR list under the id test. -/
def docStep (src : String) (st : ExtractState) (e : DocEntry) : ExtractState :=
  if pyStartsWith (docId e) "BR" then
    if st.br_patents.any (fun p => p.document_id = docId e) then st
    else { st with br_patents := st.br_patents ++ [simRecord src e] }
  else st

/-- Scan of a bounded sample of `similar_documents` (first 20) or `citations`
(first 30). -/
def scanDocs (src : String) (bound : Nat) (docs : List DocEntry)
    (st : ExtractState) : ExtractState :=
  (docs.take bound).foldl (docStep src) st

/-- Embedding of the method-1 record extraction of
`extract_all_countries_from_wo` (lines 338-427): the five substructures are
scanned in their fixed order. -/
def extractFromPayload (p : Payload) : ExtractState :=
  scanDocs "citations" 30 p.citations
    (scanDocs "similar_documents" 20 p.similar_documents
      (scanAlsoPublished p.also_published_as
        (scanFamily p.family_members
          (scanWorldwide p.worldwide_applications ⟨[], [], []⟩))))

/-! ## Search-fallback chain (src/main.py lines 431-482, method 2) -/

/-- The outcome of one detail fetch through `http_get`, as `extract_all_
countries_from_wo` discriminates it: a truthy dict without an `error` key,
an error-tagged dict, or the empty dict. -/
inductive DetailOutcome where
  | payload (p : Payload)
  | errTag (msg : String)
  | empty

/-- One organic search result, as consumed by the fallback: its advertised
publication number and its `serpapi_link` (the empty string when absent). -/
structure SearchResult where
  publication_number : String
  serpapi_link : String
deriving DecidableEq

/-- `if "api_key=" not in serpapi_link: serpapi_link += "&api_key=" + key`. -/
def addApiKey (link key : String) : String :=
  if "api_key=".data <:+: link.data then link
  else link ++ "&api_key=" ++ key

/-- The chained (method 2) worldwide scan: same loop as method 1 but building
the smaller record dict (no publication date, title or link fields). -/
def chainAppRecord (year : String) (app : AppEntry) : NatRecord :=
  { NatRecord.blank with
    document_id := app.document_id
    country := if app.document_id ≠ "" then pySlice2 app.document_id else ""
    filing_date := app.filing_date
    status := app.status
    year := year
    source := "worldwide_applications" }

/-- One `worldwide_applications` entry of the chained (method 2) scan. -/
def chainAppStep (year : String) (st : List NatRecord × List NatRecord)
    (app : AppEntry) : List NatRecord × List NatRecord :=
  (st.1 ++ [chainAppRecord year app],
   if pyStartsWith (chainAppRecord year app).document_id "BR" then
     st.2 ++ [chainAppRecord year app]
   else st.2)

/-- One year bucket of the chained (method 2) scan. -/
def chainYearStep (st : List NatRecord × List NatRecord)
    (yv : String × WwValue) : List NatRecord × List NatRecord :=
  match yv.2 with
  | .other => st
  | .list apps => apps.foldl (chainAppStep yv.1) st

/-- Method-2 extraction over a chained payload: worldwide and BR lists only. -/
def chainExtract (p : Payload) : List NatRecord × List NatRecord :=
  p.worldwide_applications.foldl chainYearStep ([], [])

/-- The observable outcome of the search-fallback branch: which organic
result's deep link was followed (by index), the resulting status string, the
recorded skip reason if any, and the extraction-method marker. -/
structure FallbackResult where
  selected : Option Nat
  status : String
  reason : Option String
  extraction_method : Option String
deriving DecidableEq

/-- Embedding of the search-fallback branch (method 2): take
`organic_results`; if it is non-empty and its FIRST element exposes a
`serpapi_link`, follow that link once (appending an api key when absent) and
extract; otherwise skip with reason `no_serpapi_link`.  A failed detail fetch
skips with reason `serpapi_link_failed`. -/
def searchFallback (organic : List SearchResult) (key : String)
    (fetchDetail : String → DetailOutcome) : FallbackResult :=
  match organic with
  | [] => ⟨none, "skipped", some "no_serpapi_link", none⟩
  | r0 :: _ =>
    if r0.serpapi_link ≠ "" then
      match fetchDetail (addApiKey r0.serpapi_link key) with
      | .payload p =>
        ⟨some 0,
         if (chainExtract p).2 ≠ [] then "success" else "no_br_patents",
         none, some "serpapi_link_chain"⟩
      | _ => ⟨some 0, "skipped", some "serpapi_link_failed", none⟩
    else ⟨none, "skipped", some "no_serpapi_link", none⟩

/-! ## Request parsing of /search and /api/v1/search (lines 701-710, 879-882)

The body of `search_patents` depends on the request dict only through the
`molecule` and `brand` strings computed in its first lines (everything after
the two `.strip()` calls and the empty-molecule check is a function of those
two strings), so the GET-vs-POST comparison reduces to this parsing stage. -/

/-- A value stored in the request dict: a string or Python `None`. -/
inductive PyVal where
  | str (s : String)
  | pyNone
deriving DecidableEq

/-- How the parsing stage can abort: `None.strip()` raises
`AttributeError`; an empty molecule raises `HTTPException(400)`. -/
inductive ParseError where
  | attributeError
  | httpException400
deriving DecidableEq

/-- A request body for `search_patents`; `none` means the key is absent. -/
structure SearchRequest where
  nome_molecula : Option PyVal
  nome_comercial : Option PyVal

/-- `request.get(key, "")`: the default applies only when the key is absent;
a key stored with value `None` yields `None`. -/
def dictGetStr (v : Option PyVal) : PyVal := v.getD (.str "")

/-- Python `str.strip()`: drop leading and trailing whitespace. -/
def pyStrip (s : String) : String :=
  String.mk (((s.data.dropWhile pyIsSpace).reverse.dropWhile pyIsSpace).reverse)

/-- `.strip()` on a fetched value: strings are stripped, `None` raises. -/
def stripVal : PyVal → Except ParseError String
  | .str s => .ok (pyStrip s)
  | .pyNone => .error .attributeError

/-- Embedding of the first lines of `search_patents`: strip both fields, then
reject an empty molecule with a 400. -/
def search_patents_parse (req : SearchRequest) :
    Except ParseError (String × String) := do
  let molecule ← stripVal (dictGetStr req.nome_molecula)
  let brand ← stripVal (dictGetStr req.nome_comercial)
  if molecule = "" then .error .httpException400
  else .ok (molecule, brand)

/-- Embedding of `search_by_url`: build the dict
`schema nome_molecula := molecule, nome_comercial := brand` — an omitted
brand is stored as `None`, not left absent — and delegate. -/
def search_by_url_parse (molecule : String) (brand : Option String) :
    Except ParseError (String × String) :=
  search_patents_parse
    { nome_molecula := some (.str molecule)
      nome_comercial := some (match brand with | some b => .str b | none => .pyNone) }

/-! ## Worldwide-patents response section (src/main.py lines 792-798, 834-839) -/

/-- A collected worldwide patent, as the response section consumes it. -/
structure WPatent where
  document_id : String
  country : String
deriving DecidableEq

/-- One iteration of the `by_country` grouping loop: create the country's
bucket when absent, then append the patent to it. -/
def addToGroup (acc : List (String × List WPatent)) (p : WPatent) :
    List (String × List WPatent) :=
  if (acc.lookup p.country).isSome then
    acc.map fun e => if e.1 = p.country then (e.1, e.2 ++ [p]) else e
  else acc ++ [(p.country, [p])]

/-- The `by_country` grouping dict, built over the FULL collected list. -/
def byCountry (l : List WPatent) : List (String × List WPatent) :=
  l.foldl addToGroup []

/-- The `worldwide_patents` section of the response. -/
structure WorldwideSection where
  total : Nat
  by_country : List (String × Nat)
  countries_found : List String
  patents : List WPatent

/-- Embedding of the `worldwide_patents` response section: `total` and the
per-country counts come from the full list, while `patents` is truncated to
the first 200 entries. -/
def worldwideSection (l : List WPatent) : WorldwideSection :=
  let groups := byCountry l
  { total := l.length
    by_country := groups.map fun e => (e.1, e.2.length)
    countries_found := groups.map Prod.fst
    patents := l.take 200 }

/-- The office-code property of one extracted record: its country field
equals the first two characters of its document id. -/
def OfficeOk (r : NatRecord) : Prop := r.country = pySlice2 r.document_id

/-! # Theorems -/

/-! ## C1 — extraction equivalence of the four surface forms -/

/-- C1 counterexample: the claim includes the string `WO 2016-096610`, but
the extractor returns the empty set for it — none of the five patterns
admits both a whitespace separator after the WO marker and a hyphen between
year and serial, so the canonical identifier is NOT among the results. -/
theorem wo_space_dash_not_extracted :
    extract_wo_numbers "WO 2016-096610" = [] ∧
    "WO2016096610" ∉ extract_wo_numbers "WO 2016-096610" := by
  decide

/-- C1 (amended): the identifier extractor returns a set containing the
canonical identifier `WO2016096610` for each of `WO2016/096610`,
`WO2016096610A1` and `PCT/IB2016/096610`; the fourth surface form of the
claim, `WO 2016-096610`, yields the empty set instead. -/
theorem extraction_equivalence_amended :
    "WO2016096610" ∈ extract_wo_numbers "WO2016/096610" ∧
    "WO2016096610" ∈ extract_wo_numbers "WO2016096610A1" ∧
    "WO2016096610" ∈ extract_wo_numbers "PCT/IB2016/096610" ∧
    extract_wo_numbers "WO 2016-096610" = [] := by
  decide

/-! ## C2 / C3 — http_get retry contract -/

/-- `http_step` only consults the script at the supplied index. -/
theorem http_step_congr (s1 s2 : Nat → AttemptOutcome) (a : Nat)
    (h : s1 a = s2 a) (st) : http_step s1 st a = http_step s2 st a := by
  unfold http_step
  rw [h]

/-- A fold of `http_step` over an index list only consults the script at
those indices. -/
theorem foldl_http_step_congr (s1 s2 : Nat → AttemptOutcome)
    (idxs : List Nat) (h : ∀ a ∈ idxs, s1 a = s2 a) (st) :
    List.foldl (http_step s1) st idxs = List.foldl (http_step s2) st idxs := by
  induction idxs generalizing st with
  | nil => rfl
  | cons a t ih =>
    simp only [List.foldl]
    rw [http_step_congr s1 s2 a (h a (List.mem_cons_self a t)) st]
    exact ih (fun b hb => h b (List.mem_cons_of_mem a hb)) _

/-- Invariant of the `http_get` loop used for C2: as long as no visited
attempt succeeds, the state is either a still-running loop or an early
return of the error-tagged dict. -/
theorem foldl_http_step_fail (script : Nat → AttemptOutcome)
    (idxs : List Nat) (st)
    (hb : ∀ b ∈ idxs, ∀ q, script b ≠ .ok q)
    (h : (∃ sl, st = .ok sl) ∨ ∃ m sl, st = .error ([("error", m)], sl)) :
    (∃ sl, List.foldl (http_step script) st idxs = .ok sl) ∨
      ∃ m sl, List.foldl (http_step script) st idxs =
        .error ([("error", m)], sl) := by
  induction idxs generalizing st with
  | nil => exact h
  | cons b t ih =>
    simp only [List.foldl]
    apply ih _ (fun c hc q => hb c (List.mem_cons_of_mem b hc) q)
    rcases h with ⟨sl, rfl⟩ | ⟨m, sl, rfl⟩
    · cases hsb : script b with
      | ok q => exact absurd hsb (hb b (List.mem_cons_self b t) q)
      | rateLimited =>
        exact Or.inl ⟨sl ++ [(b, 2 ^ (b + 1))], by simp [http_step, hsb]⟩
      | forbidden => exact Or.inl ⟨sl ++ [(b, 1)], by simp [http_step, hsb]⟩
      | exc m2 =>
        by_cases hblt : b < 2
        · exact Or.inl ⟨sl ++ [(b, 1)], by simp [http_step, hsb, hblt]⟩
        · exact Or.inr ⟨m2, sl, by simp [http_step, hsb, hblt]⟩
    · exact Or.inr ⟨m, sl, by simp [http_step]⟩

/-- C2: the fetch wrapper `http_get` never raises to its caller and makes at
most 3 attempts — its result depends only on the environment's behavior at
attempts 0, 1 and 2 — and when no attempt succeeds, the returned value is a
plain dict that is either empty or error-tagged (no exception propagates),
for every target, parameters, headers and timeout (all of which the script
abstracts over). -/
theorem http_get_contract (script : Nat → AttemptOutcome)
    (hfail : ∀ a, a < 3 → ∀ p, script a ≠ .ok p) :
    ((http_get script).1 = [] ∨ ∃ m, (http_get script).1 = [("error", m)]) ∧
    ∀ script2 : Nat → AttemptOutcome, (∀ a, a < 3 → script a = script2 a) →
      http_get script = http_get script2 := by
  constructor
  · have hmem : ∀ b ∈ ([0, 1, 2] : List Nat), ∀ q, script b ≠ .ok q := by
      intro b hb q
      have hb3 : b < 3 := by
        simp only [List.mem_cons, List.not_mem_nil, or_false] at hb
        omega
      exact hfail b hb3 q
    have hinv := foldl_http_step_fail script [0, 1, 2] (.ok []) hmem
      (Or.inl ⟨[], rfl⟩)
    unfold http_get
    rcases hinv with ⟨sl, heq⟩ | ⟨m, sl, heq⟩
    · rw [heq]
      exact Or.inl rfl
    · rw [heq]
      exact Or.inr ⟨m, rfl⟩
  · intro script2 h2
    unfold http_get
    rw [foldl_http_step_congr script script2 [0, 1, 2]
      (fun a ha => h2 a (by
        simp only [List.mem_cons, List.not_mem_nil, or_false] at ha
        omega))]

/-- C2 witness: the contract instantiated at a script every attempt of which
raises — the result is the error-tagged dict, not a propagated exception. -/
theorem http_get_contract_witness :
    ((http_get fun _ => .exc "boom").1 = [] ∨
      ∃ m, (http_get fun _ => .exc "boom").1 = [("error", m)]) ∧
    ∀ script2 : Nat → AttemptOutcome,
      (∀ a, a < 3 → (fun _ => AttemptOutcome.exc "boom") a = script2 a) →
      http_get (fun _ => .exc "boom") = http_get script2 :=
  http_get_contract (fun _ => .exc "boom")
    (fun _ _ _ h => AttemptOutcome.noConfusion h)

/-- C3 counterexample: on a rate-limited run the recorded waits are 2, 4 and
8 seconds for attempts 0, 1 and 2 — the wait at attempt 0 is 2 seconds, not
the claimed `2 ^ attempt = 1`. -/
theorem rate_limit_backoff_counterexample :
    (http_get fun _ => .rateLimited).2 = [(0, 2), (1, 4), (2, 8)] ∧
    ¬ (2 : Nat) = 2 ^ (0 : Nat) := by
  decide

/-- The sleep trace of the `http_get` result is the sleep trace of the final
loop state. -/
theorem http_get_sleeps_eq (script : Nat → AttemptOutcome) :
    (http_get script).2 =
      stSleeps (List.foldl (http_step script) (.ok []) [0, 1, 2]) := by
  unfold http_get stSleeps
  cases List.foldl (http_step script) (.ok []) [0, 1, 2] <;> rfl

/-- Every sleep the `http_get` loop appends is a rate-limit wait of
`2 ^ (attempt + 1)` seconds or a fixed 1-second wait after a forbidden
response or a caught exception. -/
theorem foldl_http_step_sleeps (script : Nat → AttemptOutcome)
    (idxs : List Nat) (st)
    (h : ∀ b v, (b, v) ∈ stSleeps st →
      (script b = .rateLimited ∧ v = 2 ^ (b + 1)) ∨
      ((script b = .forbidden ∨ ∃ m, script b = .exc m) ∧ v = 1)) :
    ∀ b v, (b, v) ∈ stSleeps (List.foldl (http_step script) st idxs) →
      (script b = .rateLimited ∧ v = 2 ^ (b + 1)) ∨
      ((script b = .forbidden ∨ ∃ m, script b = .exc m) ∧ v = 1) := by
  induction idxs generalizing st with
  | nil => exact h
  | cons c t ih =>
    simp only [List.foldl]
    apply ih
    intro b v hv
    cases st with
    | error d => exact h b v (by simpa [http_step, stSleeps] using hv)
    | ok sl =>
      cases hsc : script c with
      | ok p =>
        exact h b v (by simpa [http_step, hsc, stSleeps] using hv)
      | rateLimited =>
        simp only [http_step, hsc, stSleeps, List.mem_append,
          List.mem_singleton, Prod.mk.injEq] at hv
        rcases hv with hv | ⟨rfl, rfl⟩
        · exact h b v (by simpa [stSleeps] using hv)
        · exact Or.inl ⟨hsc, rfl⟩
      | forbidden =>
        simp only [http_step, hsc, stSleeps, List.mem_append,
          List.mem_singleton, Prod.mk.injEq] at hv
        rcases hv with hv | ⟨rfl, rfl⟩
        · exact h b v (by simpa [stSleeps] using hv)
        · exact Or.inr ⟨Or.inl hsc, rfl⟩
      | exc m =>
        by_cases hc2 : c < 2
        · simp only [http_step, hsc, hc2, if_true, stSleeps, List.mem_append,
            List.mem_singleton, Prod.mk.injEq] at hv
          rcases hv with hv | ⟨rfl, rfl⟩
          · exact h b v (by simpa [stSleeps] using hv)
          · exact Or.inr ⟨Or.inr ⟨m, hsc⟩, rfl⟩
        · exact h b v (by simpa [http_step, hsc, hc2, stSleeps] using hv)

/-- C3 (amended): in `http_get`, every recorded wait before a retry is
`2 ^ (attempt + 1)` seconds when the attempt hit a rate-limit response — one
power of two higher than the claimed `2 ^ attempt` — and a fixed 1-second
wait when it hit a forbidden response or any other caught transient failure. -/
theorem http_get_backoff_amended (script : Nat → AttemptOutcome) (a w : Nat)
    (hmem : (a, w) ∈ (http_get script).2) :
    (script a = .rateLimited ∧ w = 2 ^ (a + 1)) ∨
    ((script a = .forbidden ∨ ∃ m, script a = .exc m) ∧ w = 1) := by
  rw [http_get_sleeps_eq script] at hmem
  exact foldl_http_step_sleeps script [0, 1, 2] (.ok [])
    (by intro b v hv; simp [stSleeps] at hv) a w hmem

/-- C3 amended witness: the backoff characterization instantiated at a
script whose first attempt is rate-limited and whose recorded first wait is
2 seconds. -/
theorem http_get_backoff_amended_witness :
    (AttemptOutcome.rateLimited = AttemptOutcome.rateLimited ∧
      (2 : Nat) = 2 ^ (0 + 1)) ∨
    ((AttemptOutcome.rateLimited = AttemptOutcome.forbidden ∨
      ∃ m, AttemptOutcome.rateLimited = AttemptOutcome.exc m) ∧ (2 : Nat) = 1) :=
  http_get_backoff_amended (fun _ => .rateLimited) 0 2 (by decide)

/-! ## C4 / C5 — merge precedence and deduplication -/

/-- One unfolding step of the merge loop. -/
theorem mergeSource_cons (tag : String) (x : BrRecord) (t : List BrRecord)
    (st : List String × List BrRecord) :
    mergeSource tag (x :: t) st = mergeSource tag t (mergeStep tag st x) := rfl

/-- The seen-set of the merge only grows. -/
theorem mergeSource_seen_mono (tag : String) (rs : List BrRecord)
    (st : List String × List BrRecord) (n : String) (h : n ∈ st.1) :
    n ∈ (mergeSource tag rs st).1 := by
  induction rs generalizing st with
  | nil => exact h
  | cons x t ih =>
    apply ih
    unfold mergeStep
    by_cases hx : normalizeId x.number ∈ st.1
    · simpa [hx] using h
    · simp only [hx, if_false]
      exact List.mem_append_left _ h

/-- After merging a source, the normalized id of each of its records is in
the seen-set. -/
theorem mergeSource_mem_seen (tag : String) (rs : List BrRecord)
    (st : List String × List BrRecord) (r : BrRecord) (h : r ∈ rs) :
    normalizeId r.number ∈ (mergeSource tag rs st).1 := by
  induction rs generalizing st with
  | nil => cases h
  | cons x t ih =>
    rw [mergeSource_cons]
    rcases List.mem_cons.mp h with rfl | ht
    · apply mergeSource_seen_mono
      unfold mergeStep
      by_cases hx : normalizeId r.number ∈ st.1
      · simp only [hx, if_true]
      · simp only [hx, if_false]
        exact List.mem_append_right _ (List.mem_singleton.mpr rfl)
    · exact ih _ ht

/-- Every record the merge of one source appends carries that source's tag. -/
theorem mergeSource_source (tag : String) (rs : List BrRecord)
    (st : List String × List BrRecord) (r : BrRecord)
    (h : r ∈ (mergeSource tag rs st).2) : r ∈ st.2 ∨ r.source = tag := by
  induction rs generalizing st with
  | nil => exact Or.inl h
  | cons x t ih =>
    rcases ih _ h with hstep | htag
    · unfold mergeStep at hstep
      by_cases hx : normalizeId x.number ∈ st.1
      · simp only [hx, if_true] at hstep
        exact Or.inl hstep
      · simp only [hx, if_false] at hstep
        rcases List.mem_append.mp hstep with hin | hnew
        · exact Or.inl hin
        · right
          rw [List.mem_singleton.mp hnew]
    · exact Or.inr htag

/-- A record whose normalized id was already seen before merging a source
was already in the accumulator before that merge (no overwrite). -/
theorem mergeSource_old (tag : String) (rs : List BrRecord)
    (st : List String × List BrRecord) (r : BrRecord)
    (h : r ∈ (mergeSource tag rs st).2)
    (hn : normalizeId r.number ∈ st.1) : r ∈ st.2 := by
  induction rs generalizing st with
  | nil => exact h
  | cons x t ih =>
    have hstep : r ∈ (mergeStep tag st x).2 :=
      ih _ h (mergeSource_seen_mono tag [] (mergeStep tag st x) _ (by
        unfold mergeStep
        by_cases hx : normalizeId x.number ∈ st.1
        · simpa [hx] using hn
        · simp only [hx, if_false]
          exact List.mem_append_left _ hn))
    unfold mergeStep at hstep
    by_cases hx : normalizeId x.number ∈ st.1
    · simpa [hx] using hstep
    · simp only [hx, if_false] at hstep
      rcases List.mem_append.mp hstep with hin | hnew
      · exact hin
      · exfalso
        rw [List.mem_singleton.mp hnew] at hn
        exact hx hn

/-- The merge of one source preserves the deduplication invariant: every
accumulated record's normalized id is seen, and accumulated records have
pairwise distinct normalized ids. -/
theorem mergeSource_dedup (tag : String) (rs : List BrRecord)
    (st : List String × List BrRecord)
    (h1 : ∀ r ∈ st.2, normalizeId r.number ∈ st.1)
    (h2 : st.2.Pairwise fun a b => normalizeId a.number ≠ normalizeId b.number) :
    (∀ r ∈ (mergeSource tag rs st).2,
      normalizeId r.number ∈ (mergeSource tag rs st).1) ∧
    (mergeSource tag rs st).2.Pairwise
      (fun a b => normalizeId a.number ≠ normalizeId b.number) := by
  induction rs generalizing st with
  | nil => exact ⟨h1, h2⟩
  | cons x t ih =>
    apply ih
    · intro r hr
      unfold mergeStep at hr ⊢
      by_cases hx : normalizeId x.number ∈ st.1
      · simp only [hx, if_true] at hr ⊢
        exact h1 r hr
      · simp only [hx, if_false] at hr ⊢
        rcases List.mem_append.mp hr with hin | hnew
        · exact List.mem_append_left _ (h1 r hin)
        · rw [List.mem_singleton.mp hnew]
          exact List.mem_append_right _ (List.mem_singleton.mpr rfl)
    · unfold mergeStep
      by_cases hx : normalizeId x.number ∈ st.1
      · simpa [hx] using h2
      · simp only [hx, if_false]
        refine List.pairwise_append.mpr ⟨h2, List.pairwise_singleton _ _, ?_⟩
        intro a ha b hb
        rw [List.mem_singleton.mp hb]
        intro hcontra
        exact hx (hcontra ▸ h1 a ha)

/-- C5: in the final aggregated BR record list, any two records have
different normalized document ids (whitespace, hyphens and slashes stripped,
uppercased), whatever the three source lists contain. -/
theorem final_br_dedup_invariant (wo inpi epo : List BrRecord) :
    (combine_br wo inpi epo).Pairwise
      (fun a b => normalizeId a.number ≠ normalizeId b.number) := by
  unfold combine_br
  have s1 := mergeSource_dedup "wo_extraction" wo ([], [])
    (by intro r hr; cases hr) (List.Pairwise.nil)
  have s2 := mergeSource_dedup "inpi_direct" inpi _ s1.1 s1.2
  exact (mergeSource_dedup "epo_ops" epo _ s2.1 s2.2).2

/-- C4: if a normalized document id is produced both by the WO-extraction
path and by an independent registry lookup (INPI or EPO), then every record
with that normalized id retained in the merged final list carries the
`wo_extraction` source tag — the registry duplicate never overwrites it. -/
theorem wo_extraction_precedence (wo inpi epo : List BrRecord) (r : BrRecord)
    (hr : r ∈ combine_br wo inpi epo)
    (rWo : BrRecord) (hwo : rWo ∈ wo)
    (rReg : BrRecord) (_hreg : rReg ∈ inpi ++ epo)
    (_hn1 : normalizeId rReg.number = normalizeId rWo.number)
    (hn2 : normalizeId r.number = normalizeId rWo.number) :
    r.source = "wo_extraction" := by
  unfold combine_br at hr
  have hseen1 : normalizeId rWo.number ∈
      (mergeSource "wo_extraction" wo ([], [])).1 :=
    mergeSource_mem_seen _ wo _ rWo hwo
  have hseen2 : normalizeId rWo.number ∈
      (mergeSource "inpi_direct" inpi (mergeSource "wo_extraction" wo ([], []))).1 :=
    mergeSource_seen_mono _ inpi _ _ hseen1
  have hr2 : r ∈ (mergeSource "inpi_direct" inpi
      (mergeSource "wo_extraction" wo ([], []))).2 :=
    mergeSource_old _ epo _ r hr (hn2 ▸ hseen2)
  have hr1 : r ∈ (mergeSource "wo_extraction" wo ([], [])).2 :=
    mergeSource_old _ inpi _ r hr2 (hn2 ▸ hseen1)
  rcases mergeSource_source _ wo _ r hr1 with hnil | htag
  · cases hnil
  · exact htag

/-- C4 witness: a WO-extraction record and an INPI record with the same
normalized id `BR1`; the retained record keeps the `wo_extraction` tag. -/
theorem wo_extraction_precedence_witness :
    combine_br [⟨"BR 1", "x"⟩] [⟨"BR1", "inpi_direct"⟩] [] =
      [⟨"BR 1", "wo_extraction"⟩] ∧
    (⟨"BR 1", "wo_extraction"⟩ : BrRecord).source = "wo_extraction" :=
  ⟨by decide,
   wo_extraction_precedence [⟨"BR 1", "x"⟩] [⟨"BR1", "inpi_direct"⟩] []
     ⟨"BR 1", "wo_extraction"⟩ (by decide)
     ⟨"BR 1", "x"⟩ (by decide)
     ⟨"BR1", "inpi_direct"⟩ (by decide) (by decide) (by decide)⟩

/-! ## C6 — office-code invariant of the extraction -/

/-- Generic fold lemma: if each step only keeps or appends records satisfying
`P` under projection `proj`, so does the whole fold. -/
theorem foldl_new_pred {α σ : Type} (P : NatRecord → Prop)
    (proj : σ → List NatRecord) (f : σ → α → σ) (l : List α)
    (hstep : ∀ st a r, r ∈ proj (f st a) → r ∈ proj st ∨ P r) :
    ∀ st r, r ∈ proj (List.foldl f st l) → r ∈ proj st ∨ P r := by
  induction l with
  | nil => intro st r hr; exact Or.inl hr
  | cons a t ih =>
    intro st r hr
    rcases ih (f st a) r hr with h | h
    · exact hstep st a r h
    · exact Or.inr h

/-- A `worldwide_applications` record satisfies the office-code property by
construction. -/
theorem appRecord_office (year : String) (app : AppEntry) :
    OfficeOk (appRecord year app) := by
  unfold OfficeOk appRecord
  by_cases h : app.document_id = ""
  · simp [h, pySlice2]
  · simp [h]

/-- A chained `worldwide_applications` record satisfies the office-code
property by construction. -/
theorem chainAppRecord_office (year : String) (app : AppEntry) :
    OfficeOk (chainAppRecord year app) := by
  unfold OfficeOk chainAppRecord
  by_cases h : app.document_id = ""
  · simp [h, pySlice2]
  · simp [h]

/-- A `family_members` record satisfies the office-code property. -/
theorem famRecord_office (m : FamEntry) : OfficeOk (famRecord m) := rfl

/-- An `also_published_as` record satisfies the office-code property. -/
theorem pubRecord_office (did : String) : OfficeOk (pubRecord did) := rfl

/-- A string starting with `BR` has `BR` as its first two characters. -/
theorem startsWith_BR_slice (s : String) (h : pyStartsWith s "BR" = true) :
    pySlice2 s = "BR" := by
  unfold pyStartsWith at h
  rw [List.isPrefixOf_iff_prefix] at h
  rcases h with ⟨t, ht⟩
  unfold pySlice2
  rw [← ht]
  rfl

/-- A `similar_documents` or `citations` record (only built for BR-prefixed
ids) satisfies the office-code property. -/
theorem simRecord_office (src : String) (e : DocEntry)
    (h : pyStartsWith (docId e) "BR" = true) : OfficeOk (simRecord src e) :=
  (startsWith_BR_slice _ h).symm

/-- Step lemma for `wwAppStep`: each projection only keeps or appends
office-correct records. -/
theorem wwAppStep_mem (year : String) (st : ExtractState) (app : AppEntry)
    (r : NatRecord) :
    (r ∈ (wwAppStep year st app).worldwide_patents →
      r ∈ st.worldwide_patents ∨ OfficeOk r) ∧
    (r ∈ (wwAppStep year st app).br_patents → r ∈ st.br_patents ∨ OfficeOk r) ∧
    (r ∈ (wwAppStep year st app).family_members →
      r ∈ st.family_members ∨ OfficeOk r) := by
  unfold wwAppStep
  split <;>
    refine ⟨?_, ?_, ?_⟩ <;> intro hr <;>
    first
    | exact Or.inl hr
    | (rcases List.mem_append.mp hr with h | h
       exacts [Or.inl h, Or.inr (List.mem_singleton.mp h ▸ appRecord_office year app)])

/-- Step lemma for `wwYearStep`. -/
theorem wwYearStep_mem (st : ExtractState) (yv : String × WwValue)
    (r : NatRecord) :
    (r ∈ (wwYearStep st yv).worldwide_patents →
      r ∈ st.worldwide_patents ∨ OfficeOk r) ∧
    (r ∈ (wwYearStep st yv).br_patents → r ∈ st.br_patents ∨ OfficeOk r) ∧
    (r ∈ (wwYearStep st yv).family_members →
      r ∈ st.family_members ∨ OfficeOk r) := by
  unfold wwYearStep
  cases hv : yv.2 with
  | other => exact ⟨Or.inl, Or.inl, Or.inl⟩
  | list apps =>
    refine ⟨?_, ?_, ?_⟩
    · exact foldl_new_pred OfficeOk (fun s => s.worldwide_patents)
        (wwAppStep yv.1) apps
        (fun s a r2 h2 => (wwAppStep_mem yv.1 s a r2).1 h2) st r
    · exact foldl_new_pred OfficeOk (fun s => s.br_patents)
        (wwAppStep yv.1) apps
        (fun s a r2 h2 => (wwAppStep_mem yv.1 s a r2).2.1 h2) st r
    · exact foldl_new_pred OfficeOk (fun s => s.family_members)
        (wwAppStep yv.1) apps
        (fun s a r2 h2 => (wwAppStep_mem yv.1 s a r2).2.2 h2) st r

/-- Step lemma for `famStep`. -/
theorem famStep_mem (st : ExtractState) (m : FamEntry) (r : NatRecord) :
    (r ∈ (famStep st m).worldwide_patents →
      r ∈ st.worldwide_patents ∨ OfficeOk r) ∧
    (r ∈ (famStep st m).br_patents → r ∈ st.br_patents ∨ OfficeOk r) ∧
    (r ∈ (famStep st m).family_members →
      r ∈ st.family_members ∨ OfficeOk r) := by
  unfold famStep
  split <;>
    refine ⟨?_, ?_, ?_⟩ <;> intro hr <;>
    first
    | exact Or.inl hr
    | (rcases List.mem_append.mp hr with h | h
       exacts [Or.inl h, Or.inr (List.mem_singleton.mp h ▸ famRecord_office m)])

/-- Step lemma for `pubStep`. -/
theorem pubStep_mem (st : ExtractState) (pub : PubEntry) (r : NatRecord) :
    (r ∈ (pubStep st pub).worldwide_patents →
      r ∈ st.worldwide_patents ∨ OfficeOk r) ∧
    (r ∈ (pubStep st pub).br_patents → r ∈ st.br_patents ∨ OfficeOk r) ∧
    (r ∈ (pubStep st pub).family_members →
      r ∈ st.family_members ∨ OfficeOk r) := by
  unfold pubStep
  split
  · exact ⟨Or.inl, Or.inl, Or.inl⟩
  · split
    · split <;> split <;>
        refine ⟨?_, ?_, ?_⟩ <;> intro hr <;>
        first
        | exact Or.inl hr
        | (rcases List.mem_append.mp hr with h | h
           exacts [Or.inl h,
             Or.inr (List.mem_singleton.mp h ▸ pubRecord_office _)])
    · exact ⟨Or.inl, Or.inl, Or.inl⟩

/-- Step lemma for `docStep`. -/
theorem docStep_mem (src : String) (st : ExtractState) (e : DocEntry)
    (r : NatRecord) :
    (r ∈ (docStep src st e).worldwide_patents →
      r ∈ st.worldwide_patents ∨ OfficeOk r) ∧
    (r ∈ (docStep src st e).br_patents → r ∈ st.br_patents ∨ OfficeOk r) ∧
    (r ∈ (docStep src st e).family_members →
      r ∈ st.family_members ∨ OfficeOk r) := by
  unfold docStep
  by_cases hbr : pyStartsWith (docId e) "BR"
  · simp only [hbr, if_true]
    split
    · exact ⟨Or.inl, Or.inl, Or.inl⟩
    · refine ⟨Or.inl, ?_, Or.inl⟩
      intro hr
      rcases List.mem_append.mp hr with h | h
      · exact Or.inl h
      · exact Or.inr (List.mem_singleton.mp h ▸ simRecord_office src e hbr)
  · simp only [hbr, if_false, Bool.false_eq_true]
    exact ⟨Or.inl, Or.inl, Or.inl⟩

/-- Step lemma for the chained `chainAppStep`. -/
theorem chainAppStep_mem (year : String) (st : List NatRecord × List NatRecord)
    (app : AppEntry) (r : NatRecord) :
    (r ∈ (chainAppStep year st app).1 → r ∈ st.1 ∨ OfficeOk r) ∧
    (r ∈ (chainAppStep year st app).2 → r ∈ st.2 ∨ OfficeOk r) := by
  unfold chainAppStep
  constructor
  · intro hr
    rcases List.mem_append.mp hr with h | h
    · exact Or.inl h
    · exact Or.inr (List.mem_singleton.mp h ▸ chainAppRecord_office year app)
  · intro hr
    by_cases hbr : pyStartsWith (chainAppRecord year app).document_id "BR"
    · simp only [hbr, if_true] at hr
      rcases List.mem_append.mp hr with h | h
      · exact Or.inl h
      · exact Or.inr (List.mem_singleton.mp h ▸ chainAppRecord_office year app)
    · simp only [hbr, if_false, Bool.false_eq_true] at hr
      exact Or.inl hr

/-- Step lemma for the chained `chainYearStep`. -/
theorem chainYearStep_mem (st : List NatRecord × List NatRecord)
    (yv : String × WwValue) (r : NatRecord) :
    (r ∈ (chainYearStep st yv).1 → r ∈ st.1 ∨ OfficeOk r) ∧
    (r ∈ (chainYearStep st yv).2 → r ∈ st.2 ∨ OfficeOk r) := by
  unfold chainYearStep
  cases hv : yv.2 with
  | other => exact ⟨Or.inl, Or.inl⟩
  | list apps =>
    constructor
    · exact foldl_new_pred OfficeOk Prod.fst (chainAppStep yv.1) apps
        (fun s a r2 h2 => (chainAppStep_mem yv.1 s a r2).1 h2) st r
    · exact foldl_new_pred OfficeOk Prod.snd (chainAppStep yv.1) apps
        (fun s a r2 h2 => (chainAppStep_mem yv.1 s a r2).2 h2) st r

/-- Office-code preservation through the whole direct extraction. -/
theorem scan_office (p : Payload) :
    ∀ r, (r ∈ (extractFromPayload p).worldwide_patents ∨
          r ∈ (extractFromPayload p).br_patents ∨
          r ∈ (extractFromPayload p).family_members) → OfficeOk r := by
  intro r hr
  unfold extractFromPayload at hr
  have peel : ∀ {α : Type} (f : ExtractState → α → ExtractState) (l : List α),
      (∀ s a r2,
        (r2 ∈ (f s a).worldwide_patents →
          r2 ∈ s.worldwide_patents ∨ OfficeOk r2) ∧
        (r2 ∈ (f s a).br_patents → r2 ∈ s.br_patents ∨ OfficeOk r2) ∧
        (r2 ∈ (f s a).family_members →
          r2 ∈ s.family_members ∨ OfficeOk r2)) →
      ∀ st : ExtractState,
        (r ∈ (List.foldl f st l).worldwide_patents ∨
          r ∈ (List.foldl f st l).br_patents ∨
          r ∈ (List.foldl f st l).family_members) →
        (r ∈ st.worldwide_patents ∨ r ∈ st.br_patents ∨
          r ∈ st.family_members) ∨ OfficeOk r := by
    intro α f l hstep st h
    rcases h with h | h | h
    · rcases foldl_new_pred OfficeOk (fun s => s.worldwide_patents) f l
        (fun s a r2 h2 => (hstep s a r2).1 h2) st r h with h3 | h3
      · exact Or.inl (Or.inl h3)
      · exact Or.inr h3
    · rcases foldl_new_pred OfficeOk (fun s => s.br_patents) f l
        (fun s a r2 h2 => (hstep s a r2).2.1 h2) st r h with h3 | h3
      · exact Or.inl (Or.inr (Or.inl h3))
      · exact Or.inr h3
    · rcases foldl_new_pred OfficeOk (fun s => s.family_members) f l
        (fun s a r2 h2 => (hstep s a r2).2.2 h2) st r h with h3 | h3
      · exact Or.inl (Or.inr (Or.inr h3))
      · exact Or.inr h3
  unfold scanDocs scanAlsoPublished scanFamily scanWorldwide at hr
  rcases peel (docStep "citations") (p.citations.take 30)
      (fun s a r2 => docStep_mem "citations" s a r2) _ hr with h1 | h1
  · rcases peel (docStep "similar_documents") (p.similar_documents.take 20)
        (fun s a r2 => docStep_mem "similar_documents" s a r2) _ h1 with h2 | h2
    · rcases peel pubStep p.also_published_as
          (fun s a r2 => pubStep_mem s a r2) _ h2 with h3 | h3
      · rcases peel famStep p.family_members
            (fun s a r2 => famStep_mem s a r2) _ h3 with h4 | h4
        · rcases peel wwYearStep p.worldwide_applications
              (fun s a r2 => wwYearStep_mem s a r2) _ h4 with h5 | h5
          · rcases h5 with h6 | h6 | h6 <;> cases h6
          · exact h5
        · exact h4
      · exact h3
    · exact h2
  · exact h1

/-- C6: every national-phase record emitted by the extraction of a resolved
payload — by the direct method (worldwide, BR and family lists) or by the
chained method — has a country/office code equal to exactly the first two
characters of its document id. -/
theorem office_code_invariant (p : Payload) (r : NatRecord)
    (hr : r ∈ (extractFromPayload p).worldwide_patents ++
          (extractFromPayload p).br_patents ++
          (extractFromPayload p).family_members ++
          (chainExtract p).1 ++ (chainExtract p).2) :
    r.country = pySlice2 r.document_id := by
  simp only [List.mem_append] at hr
  rcases hr with (((h | h) | h) | h) | h
  · exact scan_office p r (Or.inl h)
  · exact scan_office p r (Or.inr (Or.inl h))
  · exact scan_office p r (Or.inr (Or.inr h))
  · unfold chainExtract at h
    rcases foldl_new_pred OfficeOk Prod.fst chainYearStep
      p.worldwide_applications
      (fun s a r2 h2 => (chainYearStep_mem s a r2).1 h2) ([], []) r h with
      h3 | h3
    · cases h3
    · exact h3
  · unfold chainExtract at h
    rcases foldl_new_pred OfficeOk Prod.snd chainYearStep
      p.worldwide_applications
      (fun s a r2 h2 => (chainYearStep_mem s a r2).2 h2) ([], []) r h with
      h3 | h3
    · cases h3
    · exact h3

/-- C6 witness: the invariant applied to the spec scenario record — the BR
application extracted from the worldwide-applications bucket of
`WO2016096610`. -/
theorem office_code_invariant_witness :
    (appRecord "2016" ⟨"BR112017020400A2", "2016-12-01", "", "active", "", ""⟩).country =
      pySlice2 (appRecord "2016"
        ⟨"BR112017020400A2", "2016-12-01", "", "active", "", ""⟩).document_id :=
  office_code_invariant
    ⟨[("2016", .list [⟨"BR112017020400A2", "2016-12-01", "", "active", "", ""⟩])],
      [], [], [], []⟩
    (appRecord "2016" ⟨"BR112017020400A2", "2016-12-01", "", "active", "", ""⟩)
    (by decide)

/-! ## C8 — search-fallback selection and failure reasons -/

/-- C8 counterexample: with two search results, where only the SECOND
advertises the requested identifier `WO2016096610`, the deep-link follow-up
still selects the first result (index 0) — the code never scans for an
identifier match. -/
theorem fallback_selection_counterexample :
    (searchFallback [⟨"WO1111111111", "L0"⟩, ⟨"WO2016096610", "L1"⟩] "k"
      (fun _ => .empty)).selected = some 0 ∧
    (([⟨"WO1111111111", "L0"⟩, ⟨"WO2016096610", "L1"⟩] :
        List SearchResult).get ⟨0, by decide⟩).publication_number ≠
      "WO2016096610" ∧
    (([⟨"WO1111111111", "L0"⟩, ⟨"WO2016096610", "L1"⟩] :
        List SearchResult).get ⟨1, by decide⟩).publication_number =
      "WO2016096610" := by
  decide

/-- C8 (amended): for every non-empty search-result list, the result whose
deep link is followed is always the FIRST result overall (its advertised
identifier is never consulted); a first result without a deep link yields
status `skipped` with recorded reason `no_serpapi_link`, and a failed detail
fetch over the followed link yields status `skipped` with recorded reason
`serpapi_link_failed`. -/
theorem fallback_selection_amended (organic : List SearchResult) (key : String)
    (f : String → DetailOutcome)
    (r0 : SearchResult) (rest : List SearchResult) (h0 : organic = r0 :: rest) :
    (r0.serpapi_link ≠ "" →
      (searchFallback organic key f).selected = some 0 ∧
      ((∀ p, f (addApiKey r0.serpapi_link key) ≠ .payload p) →
        (searchFallback organic key f).status = "skipped" ∧
        (searchFallback organic key f).reason = some "serpapi_link_failed")) ∧
    (r0.serpapi_link = "" →
      (searchFallback organic key f).selected = none ∧
      (searchFallback organic key f).status = "skipped" ∧
      (searchFallback organic key f).reason = some "no_serpapi_link") := by
  subst h0
  unfold searchFallback
  dsimp only
  constructor
  · intro hl
    rw [if_pos hl]
    cases hf : f (addApiKey r0.serpapi_link key) with
    | payload p => exact ⟨rfl, fun hnp => (hnp p rfl).elim⟩
    | errTag m => exact ⟨rfl, fun _ => ⟨rfl, rfl⟩⟩
    | empty => exact ⟨rfl, fun _ => ⟨rfl, rfl⟩⟩
  · intro hl
    rw [if_neg (fun hc => hc hl)]
    exact ⟨rfl, rfl, rfl⟩

/-- C8 amended witness: a single result without a deep link skips with
reason `no_serpapi_link`. -/
theorem fallback_selection_amended_witness :
    ((⟨"WO2016096610", ""⟩ : SearchResult).serpapi_link ≠ "" →
      (searchFallback [⟨"WO2016096610", ""⟩] "k"
        (fun _ => .empty)).selected = some 0 ∧
      ((∀ p, (fun _ => DetailOutcome.empty)
          (addApiKey (⟨"WO2016096610", ""⟩ : SearchResult).serpapi_link "k") ≠
            .payload p) →
        (searchFallback [⟨"WO2016096610", ""⟩] "k"
          (fun _ => .empty)).status = "skipped" ∧
        (searchFallback [⟨"WO2016096610", ""⟩] "k"
          (fun _ => .empty)).reason = some "serpapi_link_failed")) ∧
    ((⟨"WO2016096610", ""⟩ : SearchResult).serpapi_link = "" →
      (searchFallback [⟨"WO2016096610", ""⟩] "k"
        (fun _ => .empty)).selected = none ∧
      (searchFallback [⟨"WO2016096610", ""⟩] "k"
        (fun _ => .empty)).status = "skipped" ∧
      (searchFallback [⟨"WO2016096610", ""⟩] "k"
        (fun _ => .empty)).reason = some "no_serpapi_link") :=
  fallback_selection_amended [⟨"WO2016096610", ""⟩] "k" (fun _ => .empty)
    ⟨"WO2016096610", ""⟩ [] rfl

/-! ## C9 — GET path-parameter variant vs POST body -/

/-- C9 (code bug): with the brand omitted, the GET variant stores Python
`None` under `nome_comercial`, and `search_patents` then evaluates
`None.strip()`, raising `AttributeError` (an unhandled 500) — while the POST
operation invoked with the same molecule and no brand key parses
successfully to `("darolutamide", "")`.  When a brand IS provided, the two
parse identically for every brand string. -/
theorem search_by_url_brand_none_crash :
    search_by_url_parse "darolutamide" none = .error .attributeError ∧
    search_patents_parse ⟨some (.str "darolutamide"), none⟩ =
      .ok ("darolutamide", "") ∧
    ∀ b : String, search_by_url_parse "darolutamide" (some b) =
      search_patents_parse ⟨some (.str "darolutamide"), some (.str b)⟩ :=
  ⟨rfl, rfl, fun _ => rfl⟩

/-! ## C10 — response truncation vs full-collection counts -/

/-- An entry of an association list makes its key's lookup succeed. -/
theorem lookup_isSome_of_mem (c : String) (ps : List WPatent)
    (acc : List (String × List WPatent)) (h : (c, ps) ∈ acc) :
    (acc.lookup c).isSome := by
  induction acc with
  | nil => cases h
  | cons e t ih =>
    rcases List.mem_cons.mp h with heq | ht
    · have hc : c = e.1 := congrArg Prod.fst heq
      simp [List.lookup, hc]
    · by_cases hc : c = e.1
      · simp [List.lookup, hc]
      · have hbe : (c == e.1) = false := by simp [hc]
        simp only [List.lookup, hbe]
        exact ih ht

/-- A key present among the association list's keys has a successful
lookup. -/
theorem lookup_isSome_of_mem_keys (c : String)
    (acc : List (String × List WPatent)) (h : c ∈ acc.map Prod.fst) :
    (acc.lookup c).isSome := by
  rcases List.mem_map.mp h with ⟨e, he, rfl⟩
  exact lookup_isSome_of_mem e.1 e.2 acc (by simpa using he)

/-- A failed lookup means the key is absent from the keys. -/
theorem not_mem_keys_of_lookup_none (c : String)
    (acc : List (String × List WPatent)) (h : ¬(acc.lookup c).isSome) :
    c ∉ acc.map Prod.fst :=
  fun hc => h (lookup_isSome_of_mem_keys c acc hc)

/-- A successful lookup means the key is among the keys. -/
theorem mem_keys_of_lookup_isSome (c : String)
    (acc : List (String × List WPatent)) (h : (acc.lookup c).isSome) :
    c ∈ acc.map Prod.fst := by
  induction acc with
  | nil => simp [List.lookup] at h
  | cons e t ih =>
    by_cases hc : c = e.1
    · simp [hc]
    · have hbe : (c == e.1) = false := by simp [hc]
      simp only [List.lookup, hbe] at h
      simp only [List.map_cons, List.mem_cons]
      exact Or.inr (ih h)

/-- Invariant of the `by_country` grouping loop: after processing `pre`,
every bucket holds exactly the records of `pre` with that country, and every
processed record's country is among the keys. -/
theorem byCountry_inv (l : List WPatent) :
    ∀ (acc : List (String × List WPatent)) (pre : List WPatent),
      (∀ c ps, (c, ps) ∈ acc → ps = pre.filter (fun p => p.country = c)) →
      (∀ p ∈ pre, p.country ∈ acc.map Prod.fst) →
      (∀ c ps, (c, ps) ∈ l.foldl addToGroup acc →
        ps = (pre ++ l).filter (fun p => p.country = c)) ∧
      (∀ p ∈ pre ++ l, p.country ∈ (l.foldl addToGroup acc).map Prod.fst) := by
  induction l with
  | nil =>
    intro acc pre h1 h2
    constructor
    · intro c ps hm
      rw [List.append_nil]
      exact h1 c ps hm
    · intro p hp
      rw [List.append_nil] at hp
      exact h2 p hp
  | cons x t ih =>
    intro acc pre h1 h2
    have hstep1 : ∀ c ps, (c, ps) ∈ addToGroup acc x →
        ps = (pre ++ [x]).filter (fun p => p.country = c) := by
      intro c ps hm
      unfold addToGroup at hm
      by_cases hs : (acc.lookup x.country).isSome
      · rw [if_pos hs] at hm
        rcases List.mem_map.mp hm with ⟨e, he, heq⟩
        by_cases hc : e.1 = x.country
        · rw [if_pos hc] at heq
          injection heq with hceq hpseq
          subst hceq
          subst hpseq
          rw [h1 e.1 e.2 he, List.filter_append]
          simp [hc]
        · rw [if_neg hc] at heq
          subst heq
          rw [h1 c ps he, List.filter_append]
          have hx : ¬ x.country = c := fun hh => hc hh.symm
          simp [hx]
      · rw [if_neg hs] at hm
        rcases List.mem_append.mp hm with hin | hnew
        · have hps := h1 c ps hin
          have hxc : ¬ x.country = c := by
            intro hh
            exact hs (by rw [hh]; exact lookup_isSome_of_mem c ps acc hin)
          rw [hps, List.filter_append]
          simp [hxc]
        · have heq := List.mem_singleton.mp hnew
          injection heq with hceq hpseq
          subst hceq
          subst hpseq
          have hflt : pre.filter (fun p => p.country = x.country) = [] := by
            rw [List.filter_eq_nil_iff]
            intro q hq
            simp only [decide_eq_true_eq]
            intro hqc
            have hk := h2 q hq
            rw [hqc] at hk
            exact (not_mem_keys_of_lookup_none x.country acc hs) hk
          rw [List.filter_append, hflt]
          simp
    have hstep2 : ∀ p ∈ pre ++ [x],
        p.country ∈ (addToGroup acc x).map Prod.fst := by
      intro p hp
      unfold addToGroup
      by_cases hs : (acc.lookup x.country).isSome
      · rw [if_pos hs]
        have hkeys : (acc.map fun e =>
            if e.1 = x.country then (e.1, e.2 ++ [x]) else e).map Prod.fst =
            acc.map Prod.fst := by
          rw [List.map_map]
          apply List.map_congr_left
          intro e _
          by_cases hc : e.1 = x.country <;> simp [hc]
        rw [hkeys]
        rcases List.mem_append.mp hp with hin | hx
        · exact h2 p hin
        · rw [List.mem_singleton.mp hx]
          exact mem_keys_of_lookup_isSome x.country acc hs
      · rw [if_neg hs]
        rw [List.map_append]
        rcases List.mem_append.mp hp with hin | hx
        · exact List.mem_append_left _ (h2 p hin)
        · rw [List.mem_singleton.mp hx]
          exact List.mem_append_right _ (by simp)
    have hres := ih (addToGroup acc x) (pre ++ [x]) hstep1 hstep2
    constructor
    · intro c ps hm
      have := hres.1 c ps hm
      rwa [List.append_assoc, List.singleton_append] at this
    · intro p hp
      apply hres.2 p
      rw [List.append_assoc, List.singleton_append]
      exact hp

/-- C10: in the `worldwide_patents` response section, the `patents` list is
the first 200 collected records (hence at most 200), while `total` and every
per-country count are computed over the full untruncated collection — so
whenever more than 200 records were collected, the reported total exceeds
the number of records actually returned. -/
theorem worldwide_section_truncation (l : List WPatent) :
    (worldwideSection l).patents = l.take 200 ∧
    (worldwideSection l).patents.length ≤ 200 ∧
    (worldwideSection l).total = l.length ∧
    (∀ c n, (c, n) ∈ (worldwideSection l).by_country →
      n = (l.filter (fun p => p.country = c)).length) ∧
    (200 < l.length →
      (worldwideSection l).patents.length < (worldwideSection l).total) := by
  have hinv := byCountry_inv l [] []
    (by intro c ps hm; cases hm) (by intro p hp; cases hp)
  refine ⟨rfl, ?_, rfl, ?_, ?_⟩
  · show (l.take 200).length ≤ 200
    rw [List.length_take]
    exact min_le_left _ _
  · intro c n hm
    rcases List.mem_map.mp hm with ⟨e, he, heq⟩
    injection heq with hceq hneq
    subst hceq
    subst hneq
    rw [hinv.1 e.1 e.2 he]
    simp
  · intro hlen
    show (l.take 200).length < l.length
    rw [List.length_take]
    omega

/-- C10 witness: with 201 collected records the response returns 200 records
but reports a total of 201. -/
theorem worldwide_section_truncation_witness :
    (worldwideSection (List.replicate 201 ⟨"BR1", "BR"⟩)).patents.length <
      (worldwideSection (List.replicate 201 ⟨"BR1", "BR"⟩)).total :=
  (worldwide_section_truncation (List.replicate 201 ⟨"BR1", "BR"⟩)).2.2.2.2
    (by simp)

/-! ## C7 — idempotence of the identifier extractor on canonical strings -/

/-- A digit character differs from any specific non-digit character. -/
theorem digit_ne (c d : Char) (h : c.isDigit = true) (hd : d.isDigit = false) :
    ¬ c = d := by
  intro hc
  rw [hc, hd] at h
  cases h

/-- Digits are not regex whitespace. -/
theorem pyIsSpace_digit (c : Char) (h : c.isDigit = true) :
    pyIsSpace c = false := by
  unfold pyIsSpace
  simp [digit_ne c ' ' h (by decide), digit_ne c '\t' h (by decide),
    digit_ne c '\n' h (by decide), digit_ne c '\r' h (by decide),
    digit_ne c (Char.ofNat 11) h (by decide),
    digit_ne c (Char.ofNat 12) h (by decide)]

/-- Digits are not in the whitespace-or-hyphen class. -/
theorem isSpaceDash_digit (c : Char) (h : c.isDigit = true) :
    isSpaceDash c = false := by
  unfold isSpaceDash
  simp [pyIsSpace_digit c h, digit_ne c '-' h (by decide)]

/-- Digits are not in the whitespace-or-slash class. -/
theorem isSpaceSlash_digit (c : Char) (h : c.isDigit = true) :
    isSpaceSlash c = false := by
  unfold isSpaceSlash
  simp [pyIsSpace_digit c h, digit_ne c '/' h (by decide)]

/-- Exactly `k` digits parse off a `k`-digit prefix. -/
theorem takeDigits_exact (d rest : List Char)
    (h : ∀ c ∈ d, c.isDigit = true) :
    takeDigits d.length (d ++ rest) = some (d, rest) := by
  induction d with
  | nil => rfl
  | cons c t ih =>
    have hc := h c (by simp)
    simp [takeDigits, hc, ih (fun x hx => h x (List.mem_cons_of_mem c hx))]

/-- The WO marker never matches at a position whose first character is not a
`w` of either case. -/
theorem matchWO_not (c0 : Char) (cs : List Char)
    (h : (c0 = 'w' || c0 = 'W') = false) : matchWO (c0 :: cs) = none := by
  cases cs with
  | nil => rfl
  | cons c1 t =>
    unfold matchWO
    simp [h]

/-- The WO marker never matches inside an all-digit string. -/
theorem matchWO_digits (ts : List Char) (h : ∀ c ∈ ts, c.isDigit = true) :
    matchWO ts = none := by
  rcases ts with _ | ⟨c0, rest⟩
  · rfl
  · exact matchWO_not c0 rest (by
      simp [digit_ne c0 'w' (h c0 (by simp)) (by decide),
        digit_ne c0 'W' (h c0 (by simp)) (by decide)])

/-- Pattern 1 never matches at a non-`w` position. -/
theorem pat1At_not (c0 : Char) (cs : List Char)
    (h : (c0 = 'w' || c0 = 'W') = false) : pat1At (c0 :: cs) = none := by
  unfold pat1At
  rw [matchWO_not c0 cs h]

/-- Pattern 2 never matches at a non-`w` position. -/
theorem pat2At_not (c0 : Char) (cs : List Char)
    (h : (c0 = 'w' || c0 = 'W') = false) : pat2At (c0 :: cs) = none := by
  unfold pat2At
  rw [matchWO_not c0 cs h]

/-- Pattern 3 never matches at a non-`w` position. -/
theorem pat3At_not (c0 : Char) (cs : List Char)
    (h : (c0 = 'w' || c0 = 'W') = false) : pat3At (c0 :: cs) = none := by
  unfold pat3At
  rw [matchWO_not c0 cs h]

/-- Pattern 4 never matches at a non-`w` position. -/
theorem pat4At_not (c0 : Char) (cs : List Char)
    (h : (c0 = 'w' || c0 = 'W') = false) : pat4At (c0 :: cs) = none := by
  unfold pat4At
  rw [matchWO_not c0 cs h]

/-- Pattern 5 never matches at a non-`p` position. -/
theorem pat5At_not (c0 : Char) (cs : List Char)
    (h : (c0 = 'p' || c0 = 'P') = false) : pat5At (c0 :: cs) = none := by
  rcases cs with _ | ⟨c1, _ | ⟨c2, _ | ⟨c3, _ | ⟨c4, _ | ⟨c5, rest⟩⟩⟩⟩⟩
  · rfl
  · rfl
  · rfl
  · rfl
  · rfl
  · unfold pat5At
    simp [h]

/-- No pattern matches inside an all-digit string: pattern 1. -/
theorem pat1At_digits (ts : List Char) (h : ∀ c ∈ ts, c.isDigit = true) :
    pat1At ts = none := by
  unfold pat1At
  rw [matchWO_digits ts h]

/-- No pattern matches inside an all-digit string: pattern 2. -/
theorem pat2At_digits (ts : List Char) (h : ∀ c ∈ ts, c.isDigit = true) :
    pat2At ts = none := by
  unfold pat2At
  rw [matchWO_digits ts h]

/-- No pattern matches inside an all-digit string: pattern 3. -/
theorem pat3At_digits (ts : List Char) (h : ∀ c ∈ ts, c.isDigit = true) :
    pat3At ts = none := by
  unfold pat3At
  rw [matchWO_digits ts h]

/-- No pattern matches inside an all-digit string: pattern 4. -/
theorem pat4At_digits (ts : List Char) (h : ∀ c ∈ ts, c.isDigit = true) :
    pat4At ts = none := by
  unfold pat4At
  rw [matchWO_digits ts h]

/-- No pattern matches inside an all-digit string: pattern 5. -/
theorem pat5At_digits (ts : List Char) (h : ∀ c ∈ ts, c.isDigit = true) :
    pat5At ts = none := by
  rcases ts with _ | ⟨c0, rest⟩
  · rfl
  · exact pat5At_not c0 rest (by
      simp [digit_ne c0 'p' (h c0 (by simp)) (by decide),
        digit_ne c0 'P' (h c0 (by simp)) (by decide)])

/-- One scan step of findall when the pattern fails at this position. -/
theorem findallAux_step_none
    (mAt : List Char → Option (List Char × List Char × List Char))
    (n : Nat) (cs : List Char) (h : mAt cs = none) :
    findallAux mAt (n + 1) cs =
      (match cs with | [] => [] | _ :: t => findallAux mAt n t) := by
  cases cs <;> simp [findallAux, h]

/-- One scan step of findall when the pattern matches at this position. -/
theorem findallAux_step_some
    (mAt : List Char → Option (List Char × List Char × List Char))
    (n : Nat) (cs : List Char) (yg sg rest : List Char)
    (h : mAt cs = some (yg, sg, rest)) :
    findallAux mAt (n + 1) cs = (yg, sg) :: findallAux mAt n rest := by
  simp only [findallAux, h]

/-- The scan of the empty string finds nothing. -/
theorem findallAux_nil
    (mAt : List Char → Option (List Char × List Char × List Char))
    (h : mAt [] = none) (fuel : Nat) : findallAux mAt fuel [] = [] := by
  cases fuel with
  | zero => rfl
  | succ n => simp [findallAux, h]

/-- A scan over an all-digit string finds nothing, for a pattern that never
matches all-digit strings. -/
theorem findallAux_digits
    (mAt : List Char → Option (List Char × List Char × List Char))
    (hnm : ∀ ts : List Char, (∀ c ∈ ts, c.isDigit = true) → mAt ts = none) :
    ∀ (fuel : Nat) (cs : List Char), (∀ c ∈ cs, c.isDigit = true) →
      findallAux mAt fuel cs = [] := by
  intro fuel
  induction fuel with
  | zero => intro cs _; rfl
  | succ n ih =>
    intro cs hcs
    rw [findallAux_step_none mAt n cs (hnm cs hcs)]
    cases cs with
    | nil => rfl
    | cons c t => exact ih t (fun d hd => hcs d (List.mem_cons_of_mem c hd))

/-- A pattern that matches the whole string at position 0 yields exactly its
one group pair. -/
theorem findall_single
    (mAt : List Char → Option (List Char × List Char × List Char))
    (cs ygrp sgrp : List Char) (hm : mAt cs = some (ygrp, sgrp, []))
    (hnil : mAt [] = none) : findall mAt cs = [(ygrp, sgrp)] := by
  unfold findall
  cases cs with
  | nil => rw [hnil] at hm; cases hm
  | cons c t =>
    show findallAux mAt (t.length + 1 + 1) (c :: t) = [(ygrp, sgrp)]
    rw [findallAux_step_some mAt (t.length + 1) (c :: t) ygrp sgrp [] hm,
        findallAux_nil mAt hnil]

/-- A pattern that fails at positions 0 and 1 of a two-letter-then-digits
string, and on every all-digit string, finds nothing at all. -/
theorem findall_none3
    (mAt : List Char → Option (List Char × List Char × List Char))
    (c0 c1 : Char) (ys : List Char)
    (h0 : mAt (c0 :: c1 :: ys) = none)
    (h1 : mAt (c1 :: ys) = none)
    (hd : ∀ ts : List Char, (∀ c ∈ ts, c.isDigit = true) → mAt ts = none)
    (hys : ∀ c ∈ ys, c.isDigit = true) :
    findall mAt (c0 :: c1 :: ys) = [] := by
  unfold findall
  show findallAux mAt (ys.length + 1 + 1 + 1) (c0 :: c1 :: ys) = []
  rw [findallAux_step_none mAt (ys.length + 1 + 1) (c0 :: c1 :: ys) h0]
  show findallAux mAt (ys.length + 1 + 1) (c1 :: ys) = []
  rw [findallAux_step_none mAt (ys.length + 1) (c1 :: ys) h1]
  show findallAux mAt (ys.length + 1) ys = []
  exact findallAux_digits mAt hd _ ys hys

/-- Pattern 1 on a canonical identifier captures its year and serial and
consumes everything. -/
theorem pat1At_canon (y s : List Char) (hy4 : y.length = 4) (hs6 : s.length = 6)
    (hyd : ∀ c ∈ y, c.isDigit = true) (hsd : ∀ c ∈ s, c.isDigit = true) :
    pat1At ('W' :: 'O' :: (y ++ s)) = some (y, s, []) := by
  cases y with
  | nil => simp at hy4
  | cons y0 yt =>
    cases s with
    | nil => simp at hs6
    | cons s0 st =>
      have hy0 := hyd y0 (by simp)
      have hs0 := hsd s0 (by simp)
      have ht4 : takeDigits 4 (y0 :: (yt ++ s0 :: st)) = some (y0 :: yt, s0 :: st) := by
        have h := takeDigits_exact (y0 :: yt) (s0 :: st) hyd
        rw [hy4] at h
        simpa using h
      have ht6 : takeDigits 6 (s0 :: st) = some (s0 :: st, []) := by
        have h := takeDigits_exact (s0 :: st) [] hsd
        rw [hs6] at h
        simpa using h
      unfold pat1At
      rw [show matchWO ('W' :: 'O' :: (y0 :: yt ++ s0 :: st)) =
        some (y0 :: yt ++ s0 :: st) from rfl]
      show optCls isSpaceDash (fun cs2 => yearSepSerial isSpaceSlash cs2)
        (y0 :: (yt ++ s0 :: st)) = _
      simp only [optCls, isSpaceDash_digit y0 hy0, Bool.false_eq_true, if_false]
      unfold yearSepSerial
      rw [ht4]
      show optCls isSpaceSlash _ (s0 :: st) = _
      simp only [optCls, isSpaceSlash_digit s0 hs0, Bool.false_eq_true, if_false]
      rw [ht6]

/-- Pattern 2 on a canonical identifier captures the same pair. -/
theorem pat2At_canon (y s : List Char) (hy4 : y.length = 4) (hs6 : s.length = 6)
    (hyd : ∀ c ∈ y, c.isDigit = true) (hsd : ∀ c ∈ s, c.isDigit = true) :
    pat2At ('W' :: 'O' :: (y ++ s)) = some (y, s, []) := by
  cases y with
  | nil => simp at hy4
  | cons y0 yt =>
    cases s with
    | nil => simp at hs6
    | cons s0 st =>
      have ht4 : takeDigits 4 (y0 :: (yt ++ s0 :: st)) = some (y0 :: yt, s0 :: st) := by
        have h := takeDigits_exact (y0 :: yt) (s0 :: st) hyd
        rw [hy4] at h
        simpa using h
      have ht6 : takeDigits 6 (s0 :: st) = some (s0 :: st, []) := by
        have h := takeDigits_exact (s0 :: st) [] hsd
        rw [hs6] at h
        simpa using h
      unfold pat2At
      rw [show matchWO ('W' :: 'O' :: (y0 :: yt ++ s0 :: st)) =
        some (y0 :: yt ++ s0 :: st) from rfl]
      show (match takeDigits 4 (y0 :: (yt ++ s0 :: st)) with
        | none => none
        | some (yg, cs2) =>
          match takeDigits 6 cs2 with
          | none => none
          | some (sg, cs3) =>
            some (yg, sg, optSkip Char.isDigit (optSkip Char.isAlpha cs3))) = _
      rw [ht4]
      show (match takeDigits 6 (s0 :: st) with
        | none => none
        | some (sg, cs3) =>
          some (y0 :: yt, sg, optSkip Char.isDigit (optSkip Char.isAlpha cs3))) = _
      rw [ht6]
      rfl

/-- Pattern 3 fails on a canonical identifier (it requires a slash between
year and serial). -/
theorem pat3At_canon_none (y s : List Char) (hy4 : y.length = 4)
    (hs6 : s.length = 6)
    (hyd : ∀ c ∈ y, c.isDigit = true) (hsd : ∀ c ∈ s, c.isDigit = true) :
    pat3At ('W' :: 'O' :: (y ++ s)) = none := by
  cases y with
  | nil => simp at hy4
  | cons y0 yt =>
    cases s with
    | nil => simp at hs6
    | cons s0 st =>
      have hy0 := hyd y0 (by simp)
      have hs0 := hsd s0 (by simp)
      have ht4 : takeDigits 4 (y0 :: (yt ++ s0 :: st)) = some (y0 :: yt, s0 :: st) := by
        have h := takeDigits_exact (y0 :: yt) (s0 :: st) hyd
        rw [hy4] at h
        simpa using h
      unfold pat3At
      rw [show matchWO ('W' :: 'O' :: (y0 :: yt ++ s0 :: st)) =
        some (y0 :: yt ++ s0 :: st) from rfl]
      show optCls pyIsSpace _ (y0 :: (yt ++ s0 :: st)) = _
      simp only [optCls, pyIsSpace_digit y0 hy0, Bool.false_eq_true, if_false]
      rw [ht4]
      show (if s0 = '/' then _ else none) = none
      simp [digit_ne s0 '/' hs0 (by decide)]

/-- Pattern 4 fails on a canonical identifier (it requires a separator
between year and serial). -/
theorem pat4At_canon_none (y s : List Char) (hy4 : y.length = 4)
    (hs6 : s.length = 6)
    (hyd : ∀ c ∈ y, c.isDigit = true) (hsd : ∀ c ∈ s, c.isDigit = true) :
    pat4At ('W' :: 'O' :: (y ++ s)) = none := by
  cases y with
  | nil => simp at hy4
  | cons y0 yt =>
    cases s with
    | nil => simp at hs6
    | cons s0 st =>
      have hs0 := hsd s0 (by simp)
      have ht4 : takeDigits 4 (y0 :: (yt ++ s0 :: st)) = some (y0 :: yt, s0 :: st) := by
        have h := takeDigits_exact (y0 :: yt) (s0 :: st) hyd
        rw [hy4] at h
        simpa using h
      unfold pat4At
      rw [show matchWO ('W' :: 'O' :: (y0 :: yt ++ s0 :: st)) =
        some (y0 :: yt ++ s0 :: st) from rfl]
      show (match takeDigits 4 (y0 :: (yt ++ s0 :: st)) with
        | none => none
        | some (yg, cs2) =>
          match cs2 with
          | c :: cs3 =>
            if isSpaceDash c then
              match takeDigits 6 cs3 with
              | none => none
              | some (sg, cs4) => some (yg, sg, cs4)
            else none
          | [] => none) = none
      rw [ht4]
      show (if isSpaceDash s0 then _ else none) = none
      simp [isSpaceDash_digit s0 hs0]

/-- The canonical identifier assembly is the identity on an already
canonical (4-digit year, 6-digit serial) capture. -/
theorem mkWO_canon (y s : List Char) (hy4 : y.length = 4) (hs6 : s.length = 6) :
    mkWO (y, s) = String.mk ('W' :: 'O' :: (y ++ s)) := by
  unfold mkWO canonYear pyZfill
  simp [hy4, hs6]

/-- C7: the identifier extractor is idempotent — applied to a string that is
already a canonical identifier (`WO` + 4-digit year + 6-digit serial), it
returns exactly that identifier and nothing else, so re-extracting an
extracted identifier is a fixed point. -/
theorem extractor_idempotent (y s : List Char)
    (hy4 : y.length = 4) (hs6 : s.length = 6)
    (hyd : ∀ c ∈ y, c.isDigit = true) (hsd : ∀ c ∈ s, c.isDigit = true) :
    extract_wo_numbers (String.mk ('W' :: 'O' :: (y ++ s))) =
      [String.mk ('W' :: 'O' :: (y ++ s))] := by
  have hys : ∀ c ∈ y ++ s, c.isDigit = true := by
    intro c hc
    rcases List.mem_append.mp hc with h | h
    · exact hyd c h
    · exact hsd c h
  have h1 := findall_single pat1At ('W' :: 'O' :: (y ++ s)) y s
    (pat1At_canon y s hy4 hs6 hyd hsd) rfl
  have h2 := findall_single pat2At ('W' :: 'O' :: (y ++ s)) y s
    (pat2At_canon y s hy4 hs6 hyd hsd) rfl
  have h3 := findall_none3 pat3At 'W' 'O' (y ++ s)
    (pat3At_canon_none y s hy4 hs6 hyd hsd)
    (pat3At_not 'O' (y ++ s) (by decide))
    (fun ts hts => pat3At_digits ts hts) hys
  have h4 := findall_none3 pat4At 'W' 'O' (y ++ s)
    (pat4At_canon_none y s hy4 hs6 hyd hsd)
    (pat4At_not 'O' (y ++ s) (by decide))
    (fun ts hts => pat4At_digits ts hts) hys
  have h5 := findall_none3 pat5At 'W' 'O' (y ++ s)
    (pat5At_not 'W' ('O' :: (y ++ s)) (by decide))
    (pat5At_not 'O' (y ++ s) (by decide))
    (fun ts hts => pat5At_digits ts hts) hys
  unfold extract_wo_numbers
  show ([pat1At, pat2At, pat3At, pat4At, pat5At].foldl
    (fun acc mAt => (findall mAt ('W' :: 'O' :: (y ++ s))).foldl
      (fun a m => setInsert (mkWO m) a) acc) []) = _
  simp only [List.foldl, h1, h2, h3, h4, h5]
  simp [setInsert, mkWO_canon y s hy4 hs6]

/-- C7 witness: the extractor applied to the already-canonical identifier
`WO2016096610` returns exactly `WO2016096610`. -/
theorem extractor_idempotent_witness :
    extract_wo_numbers (String.mk
      ('W' :: 'O' :: (['2', '0', '1', '6'] ++ ['0', '9', '6', '6', '1', '0']))) =
    [String.mk
      ('W' :: 'O' :: (['2', '0', '1', '6'] ++ ['0', '9', '6', '6', '1', '0']))] :=
  extractor_idempotent ['2', '0', '1', '6'] ['0', '9', '6', '6', '1', '0']
    (by decide) (by decide) (by decide) (by decide)

end Pharmyrus
